import Mathlib

/-!
# GlobalObjects.cpp: statically-initialized runtime objects

A shallow embedding of `stdlib/public/stubs/GlobalObjects.cpp`:

* the three empty-storage singletons (`_swiftEmptyArrayStorage`,
  `_swiftEmptyDictionaryStorage`, `_swiftEmptySetStorage`), as the values of their
  static initialisers;
* `randomUInt64`, the Fuchsia entropy-draw loop;
* `initializeHashingParameters`, for each of the three build configurations;
* `_swift_instantiateInertHeapObject`, over a byte-addressed memory.

Machine integers are natural numbers reduced modulo `2 ^ w` where the source can wrap.
-/

namespace swift

/-! ## Pointers and the static data -/

/-- The three class-metadata symbols declared at the top of the file
(`CLASS_METADATA_SYM(...)`). -/
inductive ClassMetadataSym where
  | s18_EmptyArrayStorage
  | s27_RawNativeDictionaryStorage
  | s20_RawNativeSetStorage
  deriving DecidableEq, Repr

/-- The global objects whose `entries` member has its address taken in this file. -/
inductive EntriesOwner where
  | emptyDictionaryStorage
  | emptySetStorage
  deriving DecidableEq, Repr

/-- Pointer values occurring in the static initialisers: an integer cast to a pointer
(`(void*)1`), the address of a class-metadata symbol (`&CLASS_METADATA_SYM(..)`), or the
address of the `entries` member of one of the keyed singletons
(`&_swiftEmptyDictionaryStorage.entries`). -/
inductive Pointer where
  | ofInt (n : Nat)
  | metadata (sym : ClassMetadataSym)
  | entries (owner : EntriesOwner)
  deriving DecidableEq, Repr

/-- The null pointer, `(void*)0`. -/
def Pointer.null : Pointer := Pointer.ofInt 0

/-- The header `HeapObject`, as the static initialisers fill it: the isa pointer. -/
structure HeapObject where
  metadata : Pointer
  deriving DecidableEq, Repr

/-- The body `_SwiftArrayBodyStorage`: `int count; unsigned int _capacityAndFlags;`. -/
structure _SwiftArrayBodyStorage where
  count : Int
  _capacityAndFlags : Nat
  deriving DecidableEq, Repr

/-- The struct `_SwiftEmptyArrayStorage`: header and array body. -/
structure _SwiftEmptyArrayStorage where
  header : HeapObject
  body : _SwiftArrayBodyStorage
  deriving DecidableEq, Repr

/-- The struct `_SwiftUnsafeBitMap`: `unsigned int* values; int bitCount;`. -/
structure _SwiftUnsafeBitMap where
  values : Pointer
  bitCount : Int
  deriving DecidableEq, Repr

/-- The body `_SwiftDictionaryBodyStorage`:
`int capacity; int count; _SwiftUnsafeBitMap initializedEntries; void* keys; void* values;`. -/
structure _SwiftDictionaryBodyStorage where
  capacity : Int
  count : Int
  initializedEntries : _SwiftUnsafeBitMap
  keys : Pointer
  values : Pointer
  deriving DecidableEq, Repr

/-- The body of the set singleton: as the dictionary body, without `values`. -/
structure _SwiftSetBodyStorage where
  capacity : Int
  count : Int
  initializedEntries : _SwiftUnsafeBitMap
  keys : Pointer
  deriving DecidableEq, Repr

/-- The struct `_SwiftEmptyDictionaryStorage`: header, body, `int entries`. -/
structure _SwiftEmptyDictionaryStorage where
  header : HeapObject
  body : _SwiftDictionaryBodyStorage
  entries : Int
  deriving DecidableEq, Repr

/-- The struct `_SwiftEmptySetStorage`: header, body, `int entries`. -/
structure _SwiftEmptySetStorage where
  header : HeapObject
  body : _SwiftSetBodyStorage
  entries : Int
  deriving DecidableEq, Repr

/-- The global `swift::_swiftEmptyArrayStorage`. -/
def _swiftEmptyArrayStorage : _SwiftEmptyArrayStorage :=
  { header := { metadata := Pointer.metadata ClassMetadataSym.s18_EmptyArrayStorage }
    body :=
      { count := 0
        _capacityAndFlags := 1 } }

/-- The global `swift::_swiftEmptyDictionaryStorage`. -/
def _swiftEmptyDictionaryStorage : _SwiftEmptyDictionaryStorage :=
  { header := { metadata := Pointer.metadata ClassMetadataSym.s27_RawNativeDictionaryStorage }
    body :=
      { capacity := 1
        count := 0
        initializedEntries :=
          { values := Pointer.entries EntriesOwner.emptyDictionaryStorage
            bitCount := 1 }
        keys := Pointer.ofInt 1
        values := Pointer.ofInt 1 }
    entries := 0 }

/-- The global `swift::_swiftEmptySetStorage`. -/
def _swiftEmptySetStorage : _SwiftEmptySetStorage :=
  { header := { metadata := Pointer.metadata ClassMetadataSym.s20_RawNativeSetStorage }
    body :=
      { capacity := 1
        count := 0
        initializedEntries :=
          { values := Pointer.entries EntriesOwner.emptySetStorage
            bitCount := 1 }
        keys := Pointer.ofInt 1 }
    entries := 0 }

/-- The `unsigned int` read through a pointer into the static data: the `entries` member
of the named singleton, converted to `unsigned int`; any other pointer of this file
refers to no `unsigned int` object. -/
def loadUInt : Pointer → Option Nat
  | Pointer.entries EntriesOwner.emptyDictionaryStorage =>
      some (_swiftEmptyDictionaryStorage.entries % 2 ^ 32).toNat
  | Pointer.entries EntriesOwner.emptySetStorage =>
      some (_swiftEmptySetStorage.entries % 2 ^ 32).toNat
  | _ => none

/-- Bit `i` of a presence bitmap, as a consumer reads it (the containers' bitmap reader is
not part of this file): defined for `0 ≤ i < bitCount` within the first word, it is bit
`i` of the `unsigned int` the bitmap's `values` pointer refers to. -/
def _SwiftUnsafeBitMap.bit (bm : _SwiftUnsafeBitMap) (i : Nat) : Option Bool :=
  if (i : Int) < bm.bitCount ∧ i < 32 then
    (loadUInt bm.values).map fun w => w.testBit i
  else none

/-! ## C strings, the environment, `strcmp` -/

/-- A C string, given by the bytes before its terminating NUL; none of them is zero. -/
structure CString where
  bytes : List Nat
  nonzero : ∀ b ∈ bytes, b ≠ 0

/-- The C string denoted by the characters of a literal: the code units up to the first
NUL (for the ASCII literals used here a character is one byte). -/
def CString.lit (s : String) : CString :=
  { bytes := (s.toList.map Char.toNat).takeWhile (fun b => b != 0)
    nonzero := by
      intro b hb
      have h := List.mem_takeWhile_imp hb
      simpa using h }

/-- Byte-wise comparison of two NUL-terminated strings: the difference of the first pair
of differing bytes (the terminator counts as byte 0), and 0 when there is none. -/
def strcmpBytes : List Nat → List Nat → Int
  | [], [] => 0
  | [], b :: _ => 0 - (b : Int)
  | a :: _, [] => (a : Int)
  | a :: as, b :: bs => if a = b then strcmpBytes as bs else (a : Int) - (b : Int)

/-- The libc function `strcmp` on C strings. -/
def strcmp (s1 s2 : CString) : Int := strcmpBytes s1.bytes s2.bytes

/-- The process environment: each variable name is unset or bound to a C string. -/
abbrev Environ := String → Option CString

/-- The libc function `getenv`: the value of a variable, or a null pointer (`none`). -/
def getenv (env : Environ) (name : String) : Option CString := env name

/-! ## Entropy sources -/

/-- The outcomes of the platform entropy primitives, indexed by the number of earlier
calls of the same primitive.

* `arc4random_buf i`: the 64-bit value the `i`-th call stores in its 8-byte buffer;
* `zx_cprng_draw i len`: the bytes the `i`-th call stores in its buffer when asked for
  `len` bytes; the number it reports in `actual` is their count (a failed draw stores
  nothing);
* `random_device i`: the value of the `i`-th call of `std::random_device::operator()`. -/
structure EntropySource where
  arc4random_buf : Nat → Nat
  zx_cprng_draw : Nat → Nat → List Nat
  random_device : Nat → Nat

/-! ## `randomUInt64` (Fuchsia) -/

/-- The local variables of `randomUInt64`, with the number of `zx_cprng_draw` calls made
so far by the process and the list of `(read_len, actual)` pairs of the iterations run. -/
structure DrawLoop where
  remaining : Nat
  offset : Nat
  returnval : List Nat
  calls : Nat
  log : List (Nat × Nat)
  deriving DecidableEq, Repr

/-- The value of the `__swift_uint64_t` whose object representation starts with the given
bytes (Fuchsia targets are little-endian). -/
def uint64OfBytes (bs : List Nat) : Nat :=
  (bs.take 8).foldr (fun b acc => b % 256 + 256 * acc) 0

/-- The value `randomUInt64` returns from its final state. -/
def DrawLoop.value (s : DrawLoop) : Nat := uint64OfBytes s.returnval

/-- One pass through the body of the `do` loop of `randomUInt64`: the request length,
the draw, and the updates of `remaining` and `offset`. `size_t` is 64 bits wide. The draw
stores its bytes at `offset`, directly after the bytes of the earlier draws, so they are
appended to `returnval`; the unused `status` is left out. -/
def randomUInt64.body (draw : Nat → Nat → List Nat) (ZX_CPRNG_DRAW_MAX_LEN : Nat)
    (s : DrawLoop) : DrawLoop :=
  let read_len :=
    if s.remaining > ZX_CPRNG_DRAW_MAX_LEN then ZX_CPRNG_DRAW_MAX_LEN else s.remaining
  let stored := draw s.calls read_len
  let actual := stored.length
  { remaining := (s.remaining + 2 ^ 64 - actual % 2 ^ 64) % 2 ^ 64
    offset := s.offset + actual
    returnval := s.returnval ++ stored
    calls := s.calls + 1
    log := s.log ++ [(read_len, actual)] }

/-- The `do { ... } while (remaining > 0)` loop of `randomUInt64`, run for at most `fuel`
iterations; `none` when the loop is still running after them. -/
def randomUInt64.loop (draw : Nat → Nat → List Nat) (ZX_CPRNG_DRAW_MAX_LEN : Nat) :
    Nat → DrawLoop → Option DrawLoop
  | 0, _ => none
  | fuel + 1, s =>
    let s1 := randomUInt64.body draw ZX_CPRNG_DRAW_MAX_LEN s
    if s1.remaining > 0 then randomUInt64.loop draw ZX_CPRNG_DRAW_MAX_LEN fuel s1
    else some s1

/-- The function `randomUInt64`: `remaining` starts at `sizeof(__swift_uint64_t) = 8` and
`offset` at the first byte of `returnval`. `calls` is the number of draws the process made
before. The result is the final state; the returned integer is its `value`. -/
def randomUInt64 (draw : Nat → Nat → List Nat) (ZX_CPRNG_DRAW_MAX_LEN : Nat) (calls : Nat)
    (fuel : Nat) : Option DrawLoop :=
  randomUInt64.loop draw ZX_CPRNG_DRAW_MAX_LEN fuel
    { remaining := 8, offset := 0, returnval := [], calls := calls, log := [] }

/-- The invariant of the draw loop when no draw reports more than it was asked for:
`remaining` is 8 less the bytes reported so far, `offset` and the bytes stored agree with
that count, `calls` counts the draws, and every logged request is the smaller of the bytes
then missing and the draw limit, answered by the entropy source with no more bytes. -/
def DrawLoop.Consistent (draw : Nat → Nat → List Nat) (ZX_CPRNG_DRAW_MAX_LEN calls : Nat)
    (s : DrawLoop) : Prop :=
  s.remaining + (s.log.map Prod.snd).sum = 8 ∧
  s.returnval.length = (s.log.map Prod.snd).sum ∧
  s.offset = (s.log.map Prod.snd).sum ∧
  s.calls = calls + s.log.length ∧
  ∀ k req act, s.log[k]? = some (req, act) →
    req = min (8 - ((s.log.take k).map Prod.snd).sum) ZX_CPRNG_DRAW_MAX_LEN ∧
    act ≤ req ∧ act = (draw (calls + k) req).length

/-- An example entropy source: every even-numbered draw fails and stores nothing, every
odd-numbered draw stores up to three bytes `0xAB`. -/
def flakyDraw (i len : Nat) : List Nat :=
  if i % 2 = 0 then [] else List.replicate (min len 3) 0xAB

/-- The state in which `randomUInt64` returns when fed by `flakyDraw`. -/
def flakyDrawResult : DrawLoop :=
  { remaining := 0
    offset := 8
    returnval := [0xAB, 0xAB, 0xAB, 0xAB, 0xAB, 0xAB, 0xAB, 0xAB]
    calls := 6
    log := [(8, 0), (8, 3), (5, 0), (5, 3), (2, 0), (2, 2)] }

/-- An example entropy source: every draw stores up to three bytes `0x5C`. -/
def steadyDraw (_i len : Nat) : List Nat := List.replicate (min len 3) 0x5C

/-! ## `std::mt19937_64` and the uniform distribution -/

/-- The engine `std::mt19937_64`: the state words `_M_x` and the position `_M_p`. -/
structure mt19937_64 where
  _M_x : List Nat
  _M_p : Nat

namespace mt19937_64

/-- The word count `n` of the state. -/
def state_size : Nat := 312
/-- The shift size `m`. -/
def shift_size : Nat := 156
/-- The mask bits `r`. -/
def mask_bits : Nat := 31
/-- The xor mask `a`. -/
def xor_mask : Nat := 0xb5026f5aa96619e9
/-- The initialization multiplier `f`. -/
def initialization_multiplier : Nat := 6364136223846793005

/-- The words `_M_x[i], _M_x[i+1], ...` (`count` of them) that `seed` derives from
`prev = _M_x[i-1]`. -/
def seedWords (prev i : Nat) : Nat → List Nat
  | 0 => []
  | count + 1 =>
    let x := ((prev ^^^ (prev >>> 62)) * initialization_multiplier + i % state_size) % 2 ^ 64
    x :: seedWords x (i + 1) count

/-- The constructor `mt19937_64(result_type sd)`, which calls `seed(sd)`. -/
def seed (sd : Nat) : mt19937_64 :=
  { _M_x := (sd % 2 ^ 64) :: seedWords (sd % 2 ^ 64) 1 (state_size - 1)
    _M_p := state_size }

/-- One assignment of `_M_gen_rand`: `_M_x[k]` from `_M_x[k]`, `_M_x[next]`, `_M_x[src]`. -/
def twistAt (x : List Nat) (k next src : Nat) : List Nat :=
  let upper_mask := (2 ^ 64 - 1) <<< mask_bits % 2 ^ 64
  let lower_mask := (2 ^ 64 - 1) ^^^ upper_mask
  let y := (x.getD k 0 &&& upper_mask) ||| (x.getD next 0 &&& lower_mask)
  x.set k (x.getD src 0 ^^^ (y >>> 1) ^^^ (if y &&& 1 ≠ 0 then xor_mask else 0))

/-- The member `_M_gen_rand`: reloads the state vector. -/
def _M_gen_rand (e : mt19937_64) : mt19937_64 :=
  let x1 := (List.range (state_size - shift_size)).foldl
    (fun x k => twistAt x k (k + 1) (k + shift_size)) e._M_x
  let x2 := (List.range (shift_size - 1)).foldl
    (fun x j =>
      let k := j + (state_size - shift_size)
      twistAt x k (k + 1) (k - (state_size - shift_size))) x1
  let x3 := twistAt x2 (state_size - 1) 0 (shift_size - 1)
  { _M_x := x3, _M_p := 0 }

/-- The member `operator()`: the next output and the advanced engine. -/
def next (e : mt19937_64) : Nat × mt19937_64 :=
  let e1 := if e._M_p ≥ state_size then e._M_gen_rand else e
  let z0 := e1._M_x.getD e1._M_p 0
  let z1 := z0 ^^^ ((z0 >>> 29) &&& 0x5555555555555555)
  let z2 := z1 ^^^ ((z1 <<< 17 % 2 ^ 64) &&& 0x71d67fffeda60000)
  let z3 := z2 ^^^ ((z2 <<< 37 % 2 ^ 64) &&& 0xfff7eee000000000)
  let z4 := z3 ^^^ (z3 >>> 43)
  (z4, { _M_x := e1._M_x, _M_p := e1._M_p + 1 })

end mt19937_64

/-- A call `distribution(engine)` of a default-constructed
`std::uniform_int_distribution<__swift_uint64_t>`: its range `[0, 2^64 - 1]` is the range
of the engine, so the result is one engine output, less the engine's minimum 0, plus the
lower bound 0. -/
def uniform_int_distribution (engine : mt19937_64) : Nat × mt19937_64 :=
  let out := engine.next
  ((out.1 - 0 + 0) % 2 ^ 64, out.2)

/-! ## `initializeHashingParameters` -/

/-- The struct `_SwiftHashingParameters`: two 64-bit seeds and the `deterministic` flag. -/
structure _SwiftHashingParameters where
  seed0 : Nat
  seed1 : Nat
  deterministic : Bool
  deriving DecidableEq, Repr

/-- The build configuration that selects the branch of the `#if` chain. -/
inductive Platform where
  | apple
  | fuchsia
  | generic
  deriving DecidableEq, Repr

/-- The condition `determinism && 0 == strcmp(determinism, "1")`. -/
def determinismRequested (determinism : Option CString) : Bool :=
  match determinism with
  | none => false
  | some value => decide (0 = strcmp value (CString.lit "1"))

/-- The function `initializeHashingParameters`, for a build configuration, the value of
`ZX_CPRNG_DRAW_MAX_LEN`, an environment and an entropy source. `fuel` bounds the iterations
of each `randomUInt64` loop; the result is `none` when such a loop does not end within it. -/
def initializeHashingParameters (platform : Platform) (ZX_CPRNG_DRAW_MAX_LEN : Nat)
    (env : Environ) (entropy : EntropySource) (fuel : Nat) :
    Option _SwiftHashingParameters :=
  let determinism := getenv env "SWIFT_DETERMINISTIC_HASHING"
  if determinismRequested determinism then
    some { seed0 := 0, seed1 := 0, deterministic := true }
  else
    match platform with
    | Platform.apple =>
      let seed0 := entropy.arc4random_buf 0 % 2 ^ 64
      let seed1 := entropy.arc4random_buf 1 % 2 ^ 64
      some { seed0 := seed0, seed1 := seed1, deterministic := false }
    | Platform.fuchsia =>
      match randomUInt64 entropy.zx_cprng_draw ZX_CPRNG_DRAW_MAX_LEN 0 fuel with
      | none => none
      | some first =>
        match randomUInt64 entropy.zx_cprng_draw ZX_CPRNG_DRAW_MAX_LEN first.calls fuel with
        | none => none
        | some second =>
          some { seed0 := first.value, seed1 := second.value, deterministic := false }
    | Platform.generic =>
      let engine := mt19937_64.seed (entropy.random_device 0 % 2 ^ 32)
      let draw0 := uniform_int_distribution engine
      let draw1 := uniform_int_distribution draw0.2
      some { seed0 := draw0.1, seed1 := draw1.1, deterministic := false }

/-- The global `_swift_stdlib_Hashing_parameters`, set once by the static initialiser. -/
def _swift_stdlib_Hashing_parameters (platform : Platform) (ZX_CPRNG_DRAW_MAX_LEN : Nat)
    (env : Environ) (entropy : EntropySource) (fuel : Nat) :
    Option _SwiftHashingParameters :=
  initializeHashingParameters platform ZX_CPRNG_DRAW_MAX_LEN env entropy fuel

/-! ## `_swift_instantiateInertHeapObject` -/

/-- Byte-addressed memory: the byte stored at each address. -/
abbrev Memory := Nat → Nat

/-- Modelled from the spec: the declaration of `HeapObject` (`SwiftShims/HeapObject.h`) is
not part of this file. The header carries the type-metadata pointer at offset 0;
`pointerBytes` is the size of a pointer, `bigEndian` the byte order of the target, and
`refCounts` the bytes of the members after the pointer as the constructor
`HeapObject{metadata}` initialises them. -/
structure HeapObjectLayout where
  pointerBytes : Nat
  bigEndian : Bool
  refCounts : List Nat

/-- The `n` low bytes of `v`, least significant first. -/
def littleEndianBytes : Nat → Nat → List Nat
  | 0, _ => []
  | n + 1, v => v % 256 :: littleEndianBytes n (v / 256)

/-- The number whose bytes, least significant first, are given. -/
def ofLittleEndianBytes : List Nat → Nat
  | [] => 0
  | b :: bs => b + 256 * ofLittleEndianBytes bs

/-- The object representation of a pointer value on the target. -/
def HeapObjectLayout.pointerRepr (L : HeapObjectLayout) (p : Nat) : List Nat :=
  if L.bigEndian then (littleEndianBytes L.pointerBytes p).reverse
  else littleEndianBytes L.pointerBytes p

/-- The pointer value with a given object representation. -/
def HeapObjectLayout.pointerValue (L : HeapObjectLayout) (bs : List Nat) : Nat :=
  if L.bigEndian then ofLittleEndianBytes bs.reverse else ofLittleEndianBytes bs

/-- The size `sizeof(HeapObject)` of the header. -/
def HeapObjectLayout.sizeofHeapObject (L : HeapObjectLayout) : Nat :=
  L.pointerBytes + L.refCounts.length

/-- The object representation of `HeapObject{metadata}`. -/
def HeapObjectLayout.objectRepr (L : HeapObjectLayout) (metadata : Nat) : List Nat :=
  L.pointerRepr metadata ++ L.refCounts

/-- Memory after the given bytes are stored from `address` on. -/
def storeBytes (mem : Memory) (address : Nat) (bytes : List Nat) : Memory :=
  fun a => if address ≤ a ∧ a < address + bytes.length then bytes.getD (a - address) 0
    else mem a

/-- The `n` bytes of memory from `address` on. -/
def loadBytes (mem : Memory) (address n : Nat) : List Nat :=
  (List.range n).map fun i => mem (address + i)

/-- The `metadata` member of the `HeapObject` at `address`. -/
def HeapObjectLayout.metadataAt (L : HeapObjectLayout) (mem : Memory) (address : Nat) : Nat :=
  L.pointerValue (loadBytes mem address L.pointerBytes)

/-- The function `swift::_swift_instantiateInertHeapObject`: the placement
`::new (address) HeapObject{metadata}` stores the object representation of the new
header at `address` and touches nothing else. -/
def _swift_instantiateInertHeapObject (L : HeapObjectLayout) (address metadata : Nat)
    (mem : Memory) : Memory :=
  storeBytes mem address (L.objectRepr metadata)

/-! ## The empty-storage singletons -/

/-- Claim C3: the `count` field of each of the three empty-storage singletons is 0. -/
theorem emptyStorage_count_eq_zero :
    _swiftEmptyArrayStorage.body.count = 0 ∧
    _swiftEmptyDictionaryStorage.body.count = 0 ∧
    _swiftEmptySetStorage.body.count = 0 := by
  refine ⟨rfl, rfl, rfl⟩

/-- Claim C4: both keyed empty singletons have capacity 1 and a presence bitmap of bit
count 1, their count 0 is strictly below the capacity, no index lies in `0..<count`, and
the bit of the single slot 0 reads as unoccupied. -/
theorem keyedStorage_capacity_one_slot_empty :
    (_swiftEmptyDictionaryStorage.body.capacity = 1 ∧
      _swiftEmptyDictionaryStorage.body.initializedEntries.bitCount = 1 ∧
      _swiftEmptyDictionaryStorage.body.count = 0 ∧
      _swiftEmptyDictionaryStorage.body.count < _swiftEmptyDictionaryStorage.body.capacity ∧
      (∀ i : Int, ¬ (0 ≤ i ∧ i < _swiftEmptyDictionaryStorage.body.count)) ∧
      _swiftEmptyDictionaryStorage.body.initializedEntries.bit 0 = some false) ∧
    (_swiftEmptySetStorage.body.capacity = 1 ∧
      _swiftEmptySetStorage.body.initializedEntries.bitCount = 1 ∧
      _swiftEmptySetStorage.body.count = 0 ∧
      _swiftEmptySetStorage.body.count < _swiftEmptySetStorage.body.capacity ∧
      (∀ i : Int, ¬ (0 ≤ i ∧ i < _swiftEmptySetStorage.body.count)) ∧
      _swiftEmptySetStorage.body.initializedEntries.bit 0 = some false) := by
  refine ⟨⟨rfl, rfl, rfl, by decide, ?_, by decide⟩, ⟨rfl, rfl, rfl, by decide, ?_, by decide⟩⟩
  · intro i h
    have h2 : _swiftEmptyDictionaryStorage.body.count = 0 := rfl
    omega
  · intro i h
    have h2 : _swiftEmptySetStorage.body.count = 0 := rfl
    omega

/-- Claim C6: the sentinel pointers of the keyed empty singletons (keys and values of the
dictionary singleton, keys of the set singleton) differ from the null pointer. -/
theorem keyedStorage_sentinel_pointers_ne_null :
    _swiftEmptyDictionaryStorage.body.keys ≠ Pointer.null ∧
    _swiftEmptyDictionaryStorage.body.values ≠ Pointer.null ∧
    _swiftEmptySetStorage.body.keys ≠ Pointer.null := by
  decide

/-- Claim C9: in each keyed empty singleton the bitmap's words pointer is the address of
that singleton's own `entries` member, the member holds 0, the word read through the
pointer is 0, and bit 0 of the one-bit bitmap reads as not present. -/
theorem keyedStorage_bitmap_points_to_own_zero_entries :
    (_swiftEmptyDictionaryStorage.body.initializedEntries.values =
        Pointer.entries EntriesOwner.emptyDictionaryStorage ∧
      _swiftEmptyDictionaryStorage.entries = 0 ∧
      loadUInt _swiftEmptyDictionaryStorage.body.initializedEntries.values = some 0 ∧
      _swiftEmptyDictionaryStorage.body.initializedEntries.bit 0 = some false) ∧
    (_swiftEmptySetStorage.body.initializedEntries.values =
        Pointer.entries EntriesOwner.emptySetStorage ∧
      _swiftEmptySetStorage.entries = 0 ∧
      loadUInt _swiftEmptySetStorage.body.initializedEntries.values = some 0 ∧
      _swiftEmptySetStorage.body.initializedEntries.bit 0 = some false) := by
  refine ⟨⟨rfl, rfl, by decide, by decide⟩, ⟨rfl, rfl, by decide, by decide⟩⟩

/-! ## The deterministic-hashing switch -/

/-- On strings without an embedded NUL, `strcmp` is 0 exactly for equal strings. -/
theorem strcmpBytes_eq_zero_iff (a b : List Nat) (ha : ∀ x ∈ a, x ≠ 0) (hb : ∀ x ∈ b, x ≠ 0) :
    strcmpBytes a b = 0 ↔ a = b := by
  induction a generalizing b with
  | nil =>
    cases b with
    | nil => simp [strcmpBytes]
    | cons y ys =>
      have hy : y ≠ 0 := hb y (by simp)
      simp [strcmpBytes]
      omega
  | cons x xs ih =>
    have hx : x ≠ 0 := ha x (by simp)
    cases b with
    | nil =>
      simp [strcmpBytes]
      omega
    | cons y ys =>
      have hxs : ∀ z ∈ xs, z ≠ 0 := fun z hz => ha z (by simp [hz])
      have hys : ∀ z ∈ ys, z ≠ 0 := fun z hz => hb z (by simp [hz])
      by_cases hxy : x = y
      · simp [strcmpBytes, hxy, ih ys hxs hys]
      · simp [strcmpBytes, hxy]
        omega

/-- The bytes of the literal `"1"`. -/
theorem lit_one_bytes : (CString.lit "1").bytes = [('1' : Char).toNat] := by
  decide

/-- The condition of the early return holds exactly when the variable is set to a string
whose only byte is the character `1`. -/
theorem determinismRequested_iff (determinism : Option CString) :
    determinismRequested determinism = true ↔
      ∃ value, determinism = some value ∧ value.bytes = [('1' : Char).toNat] := by
  cases determinism with
  | none => simp [determinismRequested]
  | some v =>
    have h := strcmpBytes_eq_zero_iff v.bytes (CString.lit "1").bytes v.nonzero
      (CString.lit "1").nonzero
    simp only [determinismRequested, strcmp, decide_eq_true_eq, Option.some.injEq,
      exists_eq_left']
    rw [eq_comm, h, lit_one_bytes]

/-- Claim C1: with `SWIFT_DETERMINISTIC_HASHING` set to exactly `"1"`, on every platform
and for every entropy outcome `initializeHashingParameters` returns seed0 = 0, seed1 = 0,
deterministic = true, and a run with any other entropy returns the same value. -/
theorem initializeHashingParameters_deterministic (platform : Platform)
    (ZX_CPRNG_DRAW_MAX_LEN : Nat) (env : Environ) (entropy : EntropySource) (fuel : Nat)
    (value : CString) (hset : getenv env "SWIFT_DETERMINISTIC_HASHING" = some value)
    (hone : value.bytes = [('1' : Char).toNat]) :
    initializeHashingParameters platform ZX_CPRNG_DRAW_MAX_LEN env entropy fuel =
        some { seed0 := 0, seed1 := 0, deterministic := true } ∧
      ∀ (entropy2 : EntropySource) (fuel2 : Nat),
        initializeHashingParameters platform ZX_CPRNG_DRAW_MAX_LEN env entropy2 fuel2 =
          initializeHashingParameters platform ZX_CPRNG_DRAW_MAX_LEN env entropy fuel := by
  have hreq : determinismRequested (getenv env "SWIFT_DETERMINISTIC_HASHING") = true :=
    (determinismRequested_iff _).2 ⟨value, hset, hone⟩
  have hall : ∀ (e : EntropySource) (f : Nat),
      initializeHashingParameters platform ZX_CPRNG_DRAW_MAX_LEN env e f =
        some { seed0 := 0, seed1 := 0, deterministic := true } := by
    intro e f
    simp [initializeHashingParameters, hreq]
  exact ⟨hall entropy fuel, fun e f => by rw [hall e f, hall entropy fuel]⟩

/-- Witness for C1: the environment binds every variable to `"1"`, the platform is
Fuchsia and every draw fails. -/
theorem initializeHashingParameters_deterministic_witness :
    initializeHashingParameters Platform.fuchsia 256 (fun _ => some (CString.lit "1"))
        ⟨fun _ => 7, fun _ _ => [], fun _ => 7⟩ 0 =
        some { seed0 := 0, seed1 := 0, deterministic := true } ∧
      ∀ (entropy2 : EntropySource) (fuel2 : Nat),
        initializeHashingParameters Platform.fuchsia 256 (fun _ => some (CString.lit "1"))
            entropy2 fuel2 =
          initializeHashingParameters Platform.fuchsia 256 (fun _ => some (CString.lit "1"))
            ⟨fun _ => 7, fun _ _ => [], fun _ => 7⟩ 0 :=
  initializeHashingParameters_deterministic Platform.fuchsia 256
    (fun _ => some (CString.lit "1")) ⟨fun _ => 7, fun _ _ => [], fun _ => 7⟩ 0
    (CString.lit "1") rfl (by decide)

/-! ## The entropy-draw loop -/

/-- Subtraction on `size_t` does not wrap when the subtrahend is no larger. -/
theorem size_t_sub_of_le (rem a : Nat) (ha : a ≤ rem) (hrem : rem ≤ 8) :
    (rem + 2 ^ 64 - a % 2 ^ 64) % 2 ^ 64 = rem - a := by
  norm_num
  omega

/-- The loop body, with the request length named. -/
theorem body_eq (draw : Nat → Nat → List Nat) (maxLen : Nat) (s : DrawLoop) :
    ∃ req, req = min s.remaining maxLen ∧
      randomUInt64.body draw maxLen s =
        { remaining := (s.remaining + 2 ^ 64 - (draw s.calls req).length % 2 ^ 64) % 2 ^ 64
          offset := s.offset + (draw s.calls req).length
          returnval := s.returnval ++ draw s.calls req
          calls := s.calls + 1
          log := s.log ++ [(req, (draw s.calls req).length)] } := by
  refine ⟨if s.remaining > maxLen then maxLen else s.remaining, ?_, rfl⟩
  split <;> omega

/-- The loop body keeps the invariant when draws report no more than requested. -/
theorem body_consistent (draw : Nat → Nat → List Nat) (maxLen calls : Nat) (s : DrawLoop)
    (hbound : ∀ i len, (draw i len).length ≤ len)
    (hs : s.Consistent draw maxLen calls) :
    (randomUInt64.body draw maxLen s).Consistent draw maxLen calls := by
  obtain ⟨hrem, hval, hoff, hcalls, hlog⟩ := hs
  obtain ⟨q, hq, hbody⟩ := body_eq draw maxLen s
  rw [hbody]
  have hact := hbound s.calls q
  have hwrap := size_t_sub_of_le s.remaining (draw s.calls q).length (by omega) (by omega)
  refine ⟨?_, ?_, ?_, ?_, ?_⟩
  · simp only [List.map_append, List.sum_append, List.map_cons,
      List.map_nil, List.sum_cons, List.sum_nil]
    rw [hwrap]
    omega
  · simp only [List.map_append, List.sum_append, List.map_cons,
      List.map_nil, List.sum_cons, List.sum_nil, List.length_append]
    omega
  · simp only [List.map_append, List.sum_append, List.map_cons,
      List.map_nil, List.sum_cons, List.sum_nil]
    omega
  · simp only [List.length_append, List.length_cons, List.length_nil]
    omega
  · intro k req act hk
    simp only at hk
    rcases Nat.lt_trichotomy k s.log.length with hlt | heq | hgt
    · rw [List.getElem?_append_left hlt] at hk
      have h := hlog k req act hk
      simp only
      rw [List.take_append_of_le_length (Nat.le_of_lt hlt)]
      exact h
    · subst heq
      rw [List.getElem?_append_right (Nat.le_refl _)] at hk
      simp only [Nat.sub_self, List.getElem?_cons_zero, Option.some.injEq,
        Prod.mk.injEq] at hk
      obtain ⟨h1, h2⟩ := hk
      simp only
      rw [List.take_append_of_le_length (Nat.le_refl _), List.take_length]
      refine ⟨?_, ?_, ?_⟩
      · rw [← h1, hq]; omega
      · rw [← h1, ← h2]; exact hact
      · rw [← h2, ← h1, ← hcalls]
    · rw [List.getElem?_append_right (Nat.le_of_lt hgt)] at hk
      have hpos : 0 < k - s.log.length := by omega
      obtain ⟨j, hj⟩ := Nat.exists_eq_succ_of_ne_zero (Nat.pos_iff_ne_zero.1 hpos)
      rw [hj] at hk
      simp at hk

/-- A state the loop returns is consistent and has `remaining = 0`. -/
theorem loop_returns_consistent (draw : Nat → Nat → List Nat) (maxLen calls : Nat)
    (hbound : ∀ i len, (draw i len).length ≤ len) :
    ∀ (fuel : Nat) (s r : DrawLoop), s.Consistent draw maxLen calls →
      randomUInt64.loop draw maxLen fuel s = some r →
      r.Consistent draw maxLen calls ∧ r.remaining = 0 ∧
        r.log.length ≤ s.log.length + fuel := by
  intro fuel
  induction fuel with
  | zero =>
    intro s r _ h
    simp [randomUInt64.loop] at h
  | succ n ih =>
    intro s r hs h
    have hb := body_consistent draw maxLen calls s hbound hs
    have hlen : (randomUInt64.body draw maxLen s).log.length = s.log.length + 1 := by
      simp [randomUInt64.body]
    simp only [randomUInt64.loop] at h
    split at h
    · obtain ⟨h1, h2, h3⟩ := ih _ r hb h
      exact ⟨h1, h2, by omega⟩
    · simp only [Option.some.injEq] at h
      subst h
      exact ⟨hb, by omega, by omega⟩

/-- Claim C7: when no draw reports more bytes than requested (failed draws reporting zero
bytes included), a return of `randomUInt64` happens only with `remaining = 0`, the reported
byte counts summing to exactly 8, all 8 bytes of `returnval` stored and `offset` at its
end; and each request was for `min(remaining, ZX_CPRNG_DRAW_MAX_LEN)` bytes, `remaining`
being 8 less the counts reported before. -/
theorem randomUInt64_returns_only_when_filled (draw : Nat → Nat → List Nat)
    (ZX_CPRNG_DRAW_MAX_LEN calls fuel : Nat) (r : DrawLoop)
    (hbound : ∀ i len, (draw i len).length ≤ len)
    (hret : randomUInt64 draw ZX_CPRNG_DRAW_MAX_LEN calls fuel = some r) :
    r.remaining = 0 ∧ (r.log.map Prod.snd).sum = 8 ∧ r.returnval.length = 8 ∧
      r.offset = 8 ∧
      ∀ k req act, r.log[k]? = some (req, act) →
        req = min (8 - ((r.log.take k).map Prod.snd).sum) ZX_CPRNG_DRAW_MAX_LEN ∧
        act ≤ req ∧ act = (draw (calls + k) req).length := by
  have hinit : DrawLoop.Consistent draw ZX_CPRNG_DRAW_MAX_LEN calls
      { remaining := 8, offset := 0, returnval := [], calls := calls, log := [] } := by
    refine ⟨rfl, rfl, rfl, rfl, ?_⟩
    intro k req act hk
    simp at hk
  obtain ⟨⟨h1, h2, h3, _, h5⟩, h0, _⟩ :=
    loop_returns_consistent draw ZX_CPRNG_DRAW_MAX_LEN calls hbound fuel _ r hinit hret
  refine ⟨h0, by omega, by omega, by omega, h5⟩

/-- Witness for C7: fed by `flakyDraw`, whose every other draw fails, `randomUInt64`
returns after six draws with all eight bytes stored. -/
theorem randomUInt64_returns_only_when_filled_witness :
    flakyDrawResult.remaining = 0 ∧ (flakyDrawResult.log.map Prod.snd).sum = 8 ∧
      flakyDrawResult.returnval.length = 8 ∧ flakyDrawResult.offset = 8 ∧
      ∀ k req act, flakyDrawResult.log[k]? = some (req, act) →
        req = min (8 - ((flakyDrawResult.log.take k).map Prod.snd).sum) 256 ∧
        act ≤ req ∧ act = (flakyDraw (0 + k) req).length :=
  randomUInt64_returns_only_when_filled flakyDraw 256 0 6 flakyDrawResult
    (fun i len => by unfold flakyDraw; split <;> simp) (by rfl)

/-- While bytes are missing, a draw limit above 0 and draws that deliver at least one byte
and no more than requested make the loop return within `remaining` further iterations. -/
theorem loop_terminates_of_progress (draw : Nat → Nat → List Nat) (maxLen : Nat)
    (hmax : 0 < maxLen)
    (hprog : ∀ i len, 0 < len → 1 ≤ (draw i len).length ∧ (draw i len).length ≤ len) :
    ∀ (fuel : Nat) (s : DrawLoop), 0 < s.remaining → s.remaining ≤ fuel → s.remaining ≤ 8 →
      ∃ r, randomUInt64.loop draw maxLen fuel s = some r ∧
        s.log.length < r.log.length ∧ r.log.length ≤ s.log.length + s.remaining := by
  intro fuel
  induction fuel with
  | zero =>
    intro s h0 h1 _
    omega
  | succ n ih =>
    intro s h0 h1 h8
    have hlen : (randomUInt64.body draw maxLen s).log.length = s.log.length + 1 := by
      simp [randomUInt64.body]
    obtain ⟨q, hq, hbody⟩ := body_eq draw maxLen s
    have hact := hprog s.calls q (by omega)
    have hrem : (randomUInt64.body draw maxLen s).remaining =
        s.remaining - (draw s.calls q).length := by
      rw [hbody]
      exact size_t_sub_of_le s.remaining (draw s.calls q).length (by omega) (by omega)
    simp only [randomUInt64.loop]
    split
    · rename_i hgt
      have hlt : (randomUInt64.body draw maxLen s).remaining < s.remaining := by omega
      obtain ⟨r, hr, hr1, hr2⟩ := ih (randomUInt64.body draw maxLen s) hgt (by omega) (by omega)
      exact ⟨r, hr, by omega, by omega⟩
    · exact ⟨_, rfl, by omega, by omega⟩

/-- When every draw fails and stores nothing, the loop never returns. -/
theorem loop_never_returns_of_empty_draws (maxLen : Nat) :
    ∀ (fuel : Nat) (s : DrawLoop), s.remaining = 8 →
      randomUInt64.loop (fun _ _ => []) maxLen fuel s = none := by
  intro fuel
  induction fuel with
  | zero => intro s _; rfl
  | succ n ih =>
    intro s hs
    have hrem : (randomUInt64.body (fun _ _ => []) maxLen s).remaining = 8 := by
      simp [randomUInt64.body, hs]
    simp only [randomUInt64.loop, hrem]
    exact ih _ hrem

/-- Counterexample to C8 as stated: an entropy source whose every draw reports zero bytes
never reports more than requested, yet `randomUInt64` has not returned after 8 draws, nor
after any number of draws. -/
theorem randomUInt64_zero_draws_never_return :
    (∀ i len : Nat, ((fun _ _ => []) i len : List Nat).length ≤ len) ∧
      randomUInt64 (fun _ _ => []) 256 0 8 = none ∧
      ∀ fuel, randomUInt64 (fun _ _ => []) 256 0 fuel = none := by
  refine ⟨fun i len => by simp, ?_, ?_⟩
  · exact loop_never_returns_of_empty_draws 256 8 _ rfl
  · intro fuel
    exact loop_never_returns_of_empty_draws 256 fuel _ rfl

/-- Claim C8, amended: with a draw limit above 0, when every draw asked for at least one
byte reports at least one byte and no more than requested, the loop of `randomUInt64`
ends after at least one and at most 8 draws. -/
theorem randomUInt64_terminates_within_eight_draws (draw : Nat → Nat → List Nat)
    (ZX_CPRNG_DRAW_MAX_LEN calls : Nat) (hmax : 0 < ZX_CPRNG_DRAW_MAX_LEN)
    (hprog : ∀ i len, 0 < len → 1 ≤ (draw i len).length ∧ (draw i len).length ≤ len) :
    ∃ r, randomUInt64 draw ZX_CPRNG_DRAW_MAX_LEN calls 8 = some r ∧
      1 ≤ r.log.length ∧ r.log.length ≤ 8 := by
  obtain ⟨r, hr, h1, h2⟩ := loop_terminates_of_progress draw ZX_CPRNG_DRAW_MAX_LEN hmax hprog 8
    { remaining := 8, offset := 0, returnval := [], calls := calls, log := [] }
    (Nat.succ_pos 7) (Nat.le_refl 8) (Nat.le_refl 8)
  refine ⟨r, hr, ?_, ?_⟩
  · simp only [List.length_nil] at h1
    omega
  · simp only [List.length_nil] at h2
    omega

/-- Witness for C8 amended: `steadyDraw` delivers between one and three bytes per draw,
and `randomUInt64` returns within 8 draws. -/
theorem randomUInt64_terminates_within_eight_draws_witness :
    ∃ r, randomUInt64 steadyDraw 256 0 8 = some r ∧ 1 ≤ r.log.length ∧ r.log.length ≤ 8 :=
  randomUInt64_terminates_within_eight_draws steadyDraw 256 0 (by decide)
    (fun i len hlen => by
      unfold steadyDraw
      simp only [List.length_replicate]
      omega)

/-! ## The `deterministic` flag of the result -/

/-- A result of `initializeHashingParameters` has `deterministic = true` exactly when the
early return was taken. -/
theorem deterministic_eq_determinismRequested (platform : Platform) (maxLen : Nat)
    (env : Environ) (entropy : EntropySource) (fuel : Nat) (result : _SwiftHashingParameters)
    (hret : initializeHashingParameters platform maxLen env entropy fuel = some result) :
    result.deterministic = determinismRequested (getenv env "SWIFT_DETERMINISTIC_HASHING") := by
  unfold initializeHashingParameters at hret
  by_cases hreq : determinismRequested (getenv env "SWIFT_DETERMINISTIC_HASHING") = true
  · simp only [hreq, if_true, Option.some.injEq] at hret
    subst hret
    simp [hreq]
  · simp only [hreq] at hret
    have hfalse : result.deterministic = false := by
      cases platform with
      | apple =>
        simp only [Bool.false_eq_true, if_false, Option.some.injEq] at hret
        subst hret
        rfl
      | fuchsia =>
        simp only [Bool.false_eq_true, if_false] at hret
        split at hret
        · exact absurd hret (by simp)
        · split at hret
          · exact absurd hret (by simp)
          · simp only [Option.some.injEq] at hret
            subst hret
            rfl
      | generic =>
        simp only [Bool.false_eq_true, if_false, Option.some.injEq] at hret
        subst hret
        rfl
    simp [hfalse, hreq]

/-- Off Fuchsia the function returns whatever the fuel; on every platform it returns when
the draw limit is above 0, draws deliver between one byte and the requested number, and
the fuel is at least 8. -/
theorem initializeHashingParameters_returns (platform : Platform) (maxLen : Nat)
    (env : Environ) (entropy : EntropySource) (fuel : Nat)
    (h : platform ≠ Platform.fuchsia ∨
      (0 < maxLen ∧ 8 ≤ fuel ∧ ∀ i len, 0 < len →
        1 ≤ (entropy.zx_cprng_draw i len).length ∧ (entropy.zx_cprng_draw i len).length ≤ len)) :
    ∃ result, initializeHashingParameters platform maxLen env entropy fuel = some result := by
  unfold initializeHashingParameters
  by_cases hreq : determinismRequested (getenv env "SWIFT_DETERMINISTIC_HASHING") = true
  · simp only [hreq, if_true]
    exact ⟨_, rfl⟩
  · cases platform with
    | apple =>
      simp only [hreq, Bool.false_eq_true, if_false]
      exact ⟨_, rfl⟩
    | generic =>
      simp only [hreq, Bool.false_eq_true, if_false]
      exact ⟨_, rfl⟩
    | fuchsia =>
      rcases h with h | ⟨hmax, hfuel, hprog⟩
      · exact absurd rfl h
      · obtain ⟨r1, hr1, _, _⟩ := loop_terminates_of_progress entropy.zx_cprng_draw maxLen
          hmax hprog fuel
          { remaining := 8, offset := 0, returnval := [], calls := 0, log := [] }
          (Nat.succ_pos 7) hfuel (Nat.le_refl 8)
        obtain ⟨r2, hr2, _, _⟩ := loop_terminates_of_progress entropy.zx_cprng_draw maxLen
          hmax hprog fuel
          { remaining := 8, offset := 0, returnval := [], calls := r1.calls, log := [] }
          (Nat.succ_pos 7) hfuel (Nat.le_refl 8)
        refine ⟨{ seed0 := r1.value, seed1 := r2.value, deterministic := false }, ?_⟩
        simp only [hreq, Bool.false_eq_true, if_false, randomUInt64, hr1, hr2]

/-- Claim C2: for every platform, environment and entropy source, the `deterministic`
field of a result of `initializeHashingParameters` is true if and only if
`SWIFT_DETERMINISTIC_HASHING` is set and its value is exactly the one-character string
`"1"` (so an unset variable or any other value gives deterministic = false); and a result
is returned off Fuchsia always, on Fuchsia as soon as the draws deliver bytes. -/
theorem initializeHashingParameters_deterministic_iff (platform : Platform)
    (ZX_CPRNG_DRAW_MAX_LEN : Nat) (env : Environ) (entropy : EntropySource) (fuel : Nat) :
    (∀ result, initializeHashingParameters platform ZX_CPRNG_DRAW_MAX_LEN env entropy fuel =
        some result →
      (result.deterministic = true ↔
        ∃ value, getenv env "SWIFT_DETERMINISTIC_HASHING" = some value ∧
          value.bytes = [('1' : Char).toNat])) ∧
    (platform ≠ Platform.fuchsia ∨
        (0 < ZX_CPRNG_DRAW_MAX_LEN ∧ 8 ≤ fuel ∧ ∀ i len, 0 < len →
          1 ≤ (entropy.zx_cprng_draw i len).length ∧
            (entropy.zx_cprng_draw i len).length ≤ len) →
      ∃ result, initializeHashingParameters platform ZX_CPRNG_DRAW_MAX_LEN env entropy fuel =
        some result) := by
  refine ⟨fun result hret => ?_, initializeHashingParameters_returns _ _ _ _ _⟩
  rw [← determinismRequested_iff]
  rw [deterministic_eq_determinismRequested platform _ env entropy fuel result hret]

/-- The values `""`, `"0"`, `"11"`, `"1 "` and `"true"` of the variable, and an unset
variable, all give a result with `deterministic = false` (here on Fuchsia, fed by
`steadyDraw`), and the value `"1"` gives `deterministic = true`. -/
theorem initializeHashingParameters_deterministic_examples :
    (∀ v ∈ ["", "0", "11", "1 ", "true"],
      (initializeHashingParameters Platform.fuchsia 256 (fun _ => some (CString.lit v))
        ⟨fun _ => 0, steadyDraw, fun _ => 0⟩ 8).map (fun r => r.deterministic) = some false) ∧
    (initializeHashingParameters Platform.fuchsia 256 (fun _ => none)
        ⟨fun _ => 0, steadyDraw, fun _ => 0⟩ 8).map (fun r => r.deterministic) = some false ∧
    (initializeHashingParameters Platform.fuchsia 256 (fun _ => some (CString.lit "1"))
        ⟨fun _ => 0, steadyDraw, fun _ => 0⟩ 8).map (fun r => r.deterministic) = some true := by
  refine ⟨?_, by rfl, by rfl⟩
  intro v hv
  simp only [List.mem_cons, List.mem_singleton, List.not_mem_nil, or_false] at hv
  rcases hv with h | h | h | h | h <;> subst h <;> rfl

/-- Witness for C2: on an Apple platform with the variable set to `"11"`, the result is
returned with `deterministic = false`. -/
theorem initializeHashingParameters_deterministic_iff_witness :
    (({ seed0 := 7, seed1 := 9, deterministic := false } :
        _SwiftHashingParameters).deterministic = true ↔
      ∃ value, getenv (fun _ => some (CString.lit "11")) "SWIFT_DETERMINISTIC_HASHING" =
          some value ∧ value.bytes = [('1' : Char).toNat]) :=
  (initializeHashingParameters_deterministic_iff Platform.apple 256
    (fun _ => some (CString.lit "11"))
    ⟨fun i => if i = 0 then 7 else 9, fun _ _ => [], fun _ => 0⟩ 0).1
    { seed0 := 7, seed1 := 9, deterministic := false } (by rfl)

/-! ## The generic fallback: one device value seeds the engine -/

/-- A right shift does not increase a number. -/
theorem shiftRight_le_self (m n : Nat) : m >>> n ≤ m := by
  rw [Nat.shiftRight_eq_div_pow]
  exact Nat.div_le_self _ _

/-- A word read from a list of 64-bit words is a 64-bit word. -/
theorem getD_lt_of_words (x : List Nat) (hx : ∀ w ∈ x, w < 2 ^ 64) (i : Nat) :
    x.getD i 0 < 2 ^ 64 := by
  rw [List.getD_eq_getElem?_getD]
  cases h : x[i]? with
  | none => simp
  | some w =>
    have hmem : w ∈ x := List.getElem?_mem h
    simpa using hx w hmem

/-- The words `seed` derives are 64-bit words. -/
theorem seedWords_lt (count : Nat) :
    ∀ (prev i : Nat), ∀ w ∈ mt19937_64.seedWords prev i count, w < 2 ^ 64 := by
  induction count with
  | zero =>
    intro prev i w hw
    simp [mt19937_64.seedWords] at hw
  | succ n ih =>
    intro prev i w hw
    simp only [mt19937_64.seedWords, List.mem_cons] at hw
    rcases hw with hw | hw
    · rw [hw]
      exact Nat.mod_lt _ (by norm_num)
    · exact ih _ _ w hw

/-- One assignment of the reload keeps the state made of 64-bit words. -/
theorem twistAt_lt (x : List Nat) (k nx src : Nat) (hx : ∀ w ∈ x, w < 2 ^ 64) :
    ∀ w ∈ mt19937_64.twistAt x k nx src, w < 2 ^ 64 := by
  intro w hw
  simp only [mt19937_64.twistAt] at hw
  rcases List.mem_or_eq_of_mem_set hw with h | h
  · exact hx w h
  · rw [h]
    have hsrc := getD_lt_of_words x hx src
    have hk := getD_lt_of_words x hx k
    have hn := getD_lt_of_words x hx nx
    have hy : (x.getD k 0 &&& (2 ^ 64 - 1) <<< mt19937_64.mask_bits % 2 ^ 64) |||
        (x.getD nx 0 &&&
          ((2 ^ 64 - 1) ^^^ ((2 ^ 64 - 1) <<< mt19937_64.mask_bits % 2 ^ 64))) < 2 ^ 64 :=
      Nat.or_lt_two_pow (Nat.lt_of_le_of_lt Nat.and_le_left hk)
        (Nat.lt_of_le_of_lt Nat.and_le_left hn)
    refine Nat.xor_lt_two_pow (Nat.xor_lt_two_pow hsrc ?_) ?_
    · exact Nat.lt_of_le_of_lt (shiftRight_le_self _ _) hy
    · split
      · simp [mt19937_64.xor_mask]
      · norm_num

/-- A fold of assignments keeps the state made of 64-bit words. -/
theorem foldl_twist_lt (f : List Nat → Nat → List Nat)
    (hf : ∀ x k, (∀ w ∈ x, w < 2 ^ 64) → ∀ w ∈ f x k, w < 2 ^ 64) (ks : List Nat) :
    ∀ x : List Nat, (∀ w ∈ x, w < 2 ^ 64) → ∀ w ∈ ks.foldl f x, w < 2 ^ 64 := by
  induction ks with
  | nil => intro x hx; simpa using hx
  | cons k ks ih =>
    intro x hx
    simp only [List.foldl_cons]
    exact ih _ (hf x k hx)

/-- The reload keeps the state made of 64-bit words. -/
theorem gen_rand_lt (e : mt19937_64) (he : ∀ w ∈ e._M_x, w < 2 ^ 64) :
    ∀ w ∈ e._M_gen_rand._M_x, w < 2 ^ 64 := by
  simp only [mt19937_64._M_gen_rand]
  apply twistAt_lt
  apply foldl_twist_lt _ (fun x k hx => twistAt_lt x _ _ _ hx)
  apply foldl_twist_lt _ (fun x k hx => twistAt_lt x _ _ _ hx)
  exact he

/-- An engine output is a 64-bit value, and the advanced engine keeps 64-bit words. -/
theorem next_lt (e : mt19937_64) (he : ∀ w ∈ e._M_x, w < 2 ^ 64) :
    e.next.1 < 2 ^ 64 ∧ ∀ w ∈ e.next.2._M_x, w < 2 ^ 64 := by
  have h1 : ∀ w ∈ (if e._M_p ≥ mt19937_64.state_size then e._M_gen_rand else e)._M_x,
      w < 2 ^ 64 := by
    split
    · exact gen_rand_lt e he
    · exact he
  refine ⟨?_, h1⟩
  simp only [mt19937_64.next]
  have hz0 := getD_lt_of_words _ h1
    (if e._M_p ≥ mt19937_64.state_size then e._M_gen_rand else e)._M_p
  refine Nat.xor_lt_two_pow (Nat.xor_lt_two_pow (Nat.xor_lt_two_pow (Nat.xor_lt_two_pow hz0 ?_)
    ?_) ?_) ?_
  · exact Nat.and_lt_two_pow _ (by norm_num)
  · exact Nat.and_lt_two_pow _ (by norm_num)
  · exact Nat.and_lt_two_pow _ (by norm_num)
  · refine Nat.lt_of_le_of_lt (shiftRight_le_self _ _) ?_
    refine Nat.xor_lt_two_pow (Nat.xor_lt_two_pow (Nat.xor_lt_two_pow hz0 ?_) ?_) ?_
    · exact Nat.and_lt_two_pow _ (by norm_num)
    · exact Nat.and_lt_two_pow _ (by norm_num)
    · exact Nat.and_lt_two_pow _ (by norm_num)

/-- A seeded engine holds 64-bit words. -/
theorem seed_lt (sd : Nat) : ∀ w ∈ (mt19937_64.seed sd)._M_x, w < 2 ^ 64 := by
  intro w hw
  simp only [mt19937_64.seed, List.mem_cons] at hw
  rcases hw with hw | hw
  · rw [hw]
    exact Nat.mod_lt _ (by norm_num)
  · exact seedWords_lt _ _ _ w hw

/-- Over the full 64-bit range the distribution hands on the engine output unchanged. -/
theorem uniform_int_distribution_eq_next (e : mt19937_64) (he : ∀ w ∈ e._M_x, w < 2 ^ 64) :
    uniform_int_distribution e = e.next := by
  have h := (next_lt e he).1
  simp only [uniform_int_distribution, Nat.sub_zero, Nat.add_zero, Nat.mod_eq_of_lt h]

set_option maxRecDepth 100000 in
/-- The engine agrees with the reference generator on the default seed 5489: its first
two outputs. -/
theorem mt19937_64_default_seed_outputs :
    (mt19937_64.seed 5489).next.1 = 14514284786278117030 ∧
      (mt19937_64.seed 5489).next.2.next.1 = 4620546740167642908 := by
  exact ⟨by rfl, by rfl⟩

/-- Claim C10: on the generic fallback path in randomized mode the result is
deterministic = false with seed0 the first and seed1 the second output of the 64-bit
Mersenne Twister engine seeded with the value of the first `random_device` call; both are
64-bit values, and a run whose device hands out the same first value returns the same
result. -/
theorem initializeHashingParameters_generic_seeds_from_device (ZX_CPRNG_DRAW_MAX_LEN : Nat)
    (env : Environ) (entropy : EntropySource) (fuel : Nat)
    (hrandom : ¬ ∃ value, getenv env "SWIFT_DETERMINISTIC_HASHING" = some value ∧
      value.bytes = [('1' : Char).toNat]) :
    initializeHashingParameters Platform.generic ZX_CPRNG_DRAW_MAX_LEN env entropy fuel =
        some
          { seed0 := (mt19937_64.seed (entropy.random_device 0 % 2 ^ 32)).next.1
            seed1 := (mt19937_64.seed (entropy.random_device 0 % 2 ^ 32)).next.2.next.1
            deterministic := false } ∧
      (mt19937_64.seed (entropy.random_device 0 % 2 ^ 32)).next.1 < 2 ^ 64 ∧
      (mt19937_64.seed (entropy.random_device 0 % 2 ^ 32)).next.2.next.1 < 2 ^ 64 ∧
      ∀ (entropy2 : EntropySource) (fuel2 : Nat),
        entropy2.random_device 0 = entropy.random_device 0 →
        initializeHashingParameters Platform.generic ZX_CPRNG_DRAW_MAX_LEN env entropy2 fuel2 =
          initializeHashingParameters Platform.generic ZX_CPRNG_DRAW_MAX_LEN env entropy
            fuel := by
  have hreq : determinismRequested (getenv env "SWIFT_DETERMINISTIC_HASHING") = false := by
    cases h : determinismRequested (getenv env "SWIFT_DETERMINISTIC_HASHING") with
    | false => rfl
    | true => exact absurd ((determinismRequested_iff _).1 h) hrandom
  have hall : ∀ (e : EntropySource) (f : Nat),
      initializeHashingParameters Platform.generic ZX_CPRNG_DRAW_MAX_LEN env e f =
        some
          { seed0 := (mt19937_64.seed (e.random_device 0 % 2 ^ 32)).next.1
            seed1 := (mt19937_64.seed (e.random_device 0 % 2 ^ 32)).next.2.next.1
            deterministic := false } := by
    intro e f
    have h0 := seed_lt (e.random_device 0 % 2 ^ 32)
    have h1 := (next_lt _ h0).2
    simp only [initializeHashingParameters, hreq, Bool.false_eq_true, if_false,
      uniform_int_distribution_eq_next _ h0, uniform_int_distribution_eq_next _ h1]
  have h0 := seed_lt (entropy.random_device 0 % 2 ^ 32)
  have h1 := next_lt _ h0
  refine ⟨hall entropy fuel, h1.1, (next_lt _ h1.2).1, ?_⟩
  intro e2 f2 hsame
  rw [hall e2 f2, hall entropy fuel, hsame]

/-- Witness for C10: the variable is unset and the device hands out 5489. -/
theorem initializeHashingParameters_generic_seeds_from_device_witness :
    initializeHashingParameters Platform.generic 256 (fun _ => none)
        ⟨fun _ => 0, fun _ _ => [], fun _ => 5489⟩ 0 =
        some
          { seed0 := (mt19937_64.seed (5489 % 2 ^ 32)).next.1
            seed1 := (mt19937_64.seed (5489 % 2 ^ 32)).next.2.next.1
            deterministic := false } ∧
      (mt19937_64.seed (5489 % 2 ^ 32)).next.1 < 2 ^ 64 ∧
      (mt19937_64.seed (5489 % 2 ^ 32)).next.2.next.1 < 2 ^ 64 ∧
      ∀ (entropy2 : EntropySource) (fuel2 : Nat),
        entropy2.random_device 0 = 5489 →
        initializeHashingParameters Platform.generic 256 (fun _ => none) entropy2 fuel2 =
          initializeHashingParameters Platform.generic 256 (fun _ => none)
            ⟨fun _ => 0, fun _ _ => [], fun _ => 5489⟩ 0 :=
  initializeHashingParameters_generic_seeds_from_device 256 (fun _ => none)
    ⟨fun _ => 0, fun _ _ => [], fun _ => 5489⟩ 0 (by simp [getenv])

/-! ## The inert object constructor -/

/-- The byte list of a value has the requested length. -/
theorem littleEndianBytes_length (n : Nat) : ∀ v, (littleEndianBytes n v).length = n := by
  induction n with
  | zero => intro v; rfl
  | succ k ih => intro v; simp [littleEndianBytes, ih]

/-- Decoding the `n` low bytes of a value gives the value modulo `256 ^ n`. -/
theorem ofLittleEndianBytes_littleEndianBytes (n : Nat) :
    ∀ v, ofLittleEndianBytes (littleEndianBytes n v) = v % 256 ^ n := by
  induction n with
  | zero => intro v; simp [littleEndianBytes, ofLittleEndianBytes, Nat.mod_one]
  | succ k ih =>
    intro v
    simp only [littleEndianBytes, ofLittleEndianBytes, ih]
    rw [pow_succ', Nat.mod_mul]

/-- A pointer value that fits the pointer size is recovered from its representation. -/
theorem pointerValue_pointerRepr (L : HeapObjectLayout) (p : Nat)
    (hp : p < 256 ^ L.pointerBytes) : L.pointerValue (L.pointerRepr p) = p := by
  unfold HeapObjectLayout.pointerValue HeapObjectLayout.pointerRepr
  cases L.bigEndian <;>
    simp [ofLittleEndianBytes_littleEndianBytes, Nat.mod_eq_of_lt hp]

/-- The representation of a pointer has the size of a pointer. -/
theorem pointerRepr_length (L : HeapObjectLayout) (p : Nat) :
    (L.pointerRepr p).length = L.pointerBytes := by
  unfold HeapObjectLayout.pointerRepr
  cases L.bigEndian <;> simp [littleEndianBytes_length]

/-- Bytes stored at an address are read back from it. -/
theorem loadBytes_storeBytes_prefix (mem : Memory) (address : Nat) (xs ys : List Nat) :
    loadBytes (storeBytes mem address (xs ++ ys)) address xs.length = xs := by
  apply List.ext_getElem
  · simp [loadBytes]
  · intro i h1 h2
    have hlt : i < xs.length + ys.length := by omega
    simp [loadBytes, storeBytes, hlt, List.getElem?_append_left h2,
      List.getElem?_eq_getElem h2]

/-- A store leaves every address outside the stored range as it was. -/
theorem storeBytes_outside (mem : Memory) (address : Nat) (bytes : List Nat) (a : Nat)
    (ha : a < address ∨ address + bytes.length ≤ a) :
    storeBytes mem address bytes a = mem a := by
  unfold storeBytes
  rw [if_neg]
  omega

/-- Claim C5: for every layout of the header, address and metadata pointer that fits a
pointer, after `_swift_instantiateInertHeapObject` the header at `address` has its
metadata field equal to the given pointer, the header region holds the representation
of `HeapObject{metadata}`, and every byte outside the `sizeof(HeapObject)` bytes starting
at `address` is unchanged. -/
theorem _swift_instantiateInertHeapObject_writes_only_header (L : HeapObjectLayout)
    (address metadata : Nat) (mem : Memory) (hfit : metadata < 256 ^ L.pointerBytes) :
    L.metadataAt (_swift_instantiateInertHeapObject L address metadata mem) address =
        metadata ∧
      loadBytes (_swift_instantiateInertHeapObject L address metadata mem) address
        L.sizeofHeapObject = L.objectRepr metadata ∧
      ∀ a, a < address ∨ address + L.sizeofHeapObject ≤ a →
        _swift_instantiateInertHeapObject L address metadata mem a = mem a := by
  have hlen : (L.objectRepr metadata).length = L.sizeofHeapObject := by
    simp [HeapObjectLayout.objectRepr, HeapObjectLayout.sizeofHeapObject,
      pointerRepr_length]
  refine ⟨?_, ?_, ?_⟩
  · unfold HeapObjectLayout.metadataAt _swift_instantiateInertHeapObject
      HeapObjectLayout.objectRepr
    have h := loadBytes_storeBytes_prefix mem address (L.pointerRepr metadata) L.refCounts
    rw [pointerRepr_length] at h
    rw [h]
    exact pointerValue_pointerRepr L metadata hfit
  · unfold _swift_instantiateInertHeapObject
    have h := loadBytes_storeBytes_prefix mem address (L.objectRepr metadata) []
    rw [List.append_nil, hlen] at h
    exact h
  · intro a ha
    unfold _swift_instantiateInertHeapObject
    exact storeBytes_outside mem address _ a (by rw [hlen]; exact ha)

/-- Witness for C5: a 64-bit little-endian target with an 8-byte reference count, the
address 4096, the metadata pointer 0x10002000 and memory filled with 0xFF. -/
theorem _swift_instantiateInertHeapObject_writes_only_header_witness :
    HeapObjectLayout.metadataAt ⟨8, false, [3, 0, 0, 0, 0, 0, 0, 0]⟩
        (_swift_instantiateInertHeapObject ⟨8, false, [3, 0, 0, 0, 0, 0, 0, 0]⟩ 4096
          0x10002000 (fun _ => 0xFF)) 4096 = 0x10002000 ∧
      loadBytes (_swift_instantiateInertHeapObject ⟨8, false, [3, 0, 0, 0, 0, 0, 0, 0]⟩ 4096
          0x10002000 (fun _ => 0xFF)) 4096
        (HeapObjectLayout.sizeofHeapObject ⟨8, false, [3, 0, 0, 0, 0, 0, 0, 0]⟩) =
        HeapObjectLayout.objectRepr ⟨8, false, [3, 0, 0, 0, 0, 0, 0, 0]⟩ 0x10002000 ∧
      ∀ a, a < 4096 ∨
          4096 + HeapObjectLayout.sizeofHeapObject ⟨8, false, [3, 0, 0, 0, 0, 0, 0, 0]⟩ ≤ a →
        _swift_instantiateInertHeapObject ⟨8, false, [3, 0, 0, 0, 0, 0, 0, 0]⟩ 4096
          0x10002000 (fun _ => 0xFF) a = (fun _ => 0xFF) a :=
  _swift_instantiateInertHeapObject_writes_only_header ⟨8, false, [3, 0, 0, 0, 0, 0, 0, 0]⟩
    4096 0x10002000 (fun _ => 0xFF) (by decide)

end swift
